import Mathlib

/-!
Verification of the timeline-visualizer core: a shallow embedding of the
natural-language date parser (`DateParser` module) and of the collision
layout / viewport transform (`Renderer` module), with theorems checking the
documented properties against the embedded code.

Embedding conventions:
* JS strings are Lean `String`s; the regex-based matchers are hand-compiled
  into character-list scanners that reproduce the leftmost-match,
  alternation-order and greedy semantics of the concrete patterns used by
  the source.
* Calendar instants (JS `Date` values, milliseconds since the epoch) are
  `Int`; pixel quantities (JS numbers) are idealized as `ℚ`.
* The generic fallback `new Date(text)` of `parse` and the formatted current
  date `formatDate(new Date())` are external to the repository; they enter
  the embedding as parameters (`g` and `today`).
-/

namespace DP

/-- Canonical temporal value returned by the parser: the JS object
`{ startDate, endDate, isOngoing }` with ISO date strings. -/
structure CanVal where
  startDate : String
  endDate : Option String
  isOngoing : Bool
deriving DecidableEq, Repr

/-- First-success combinator mirroring the sequential strategy chain of the
source (`if (result) return result;` cascades). -/
def firstOf (a b : Option α) : Option α :=
  match a with
  | some x => some x
  | none => b

/-- JS whitespace test, restricted to the ASCII whitespace characters that
`\s` and `trim()` recognize (sufficient for the embedded patterns). -/
def isSpaceCh (c : Char) : Bool :=
  c = ' ' ∨ c = '\t' ∨ c = '\n' ∨ c = '\r'

/-- Dash characters accepted by the range patterns: hyphen, en dash, em dash. -/
def isDashCh (c : Char) : Bool :=
  c = '-' ∨ c = '–' ∨ c = '—'

/-- Digit value of a character. -/
def digitVal (c : Char) : ℕ := c.toNat - '0'.toNat

/-- Match a literal string at the current position, returning the rest. -/
def matchLit : List Char → List Char → Option (List Char)
  | [], rest => some rest
  | _ :: _, [] => none
  | c :: cs, d :: ds => if d = c then matchLit cs ds else none

/-- Greedy `\s*`. -/
def eatSpaces (cs : List Char) : List Char := cs.dropWhile isSpaceCh

/-- Greedy `\s+` (at least one whitespace character). -/
def eatSpaces1 : List Char → Option (List Char)
  | [] => none
  | c :: rest => if isSpaceCh c then some (eatSpaces rest) else none

/-- Exactly four digits, `\d{4}` (the following character may be a digit,
as in the JS patterns, which carry no trailing boundary). -/
def take4Digits : List Char → Option (ℕ × List Char)
  | a :: b :: c :: d :: rest =>
    if a.isDigit ∧ b.isDigit ∧ c.isDigit ∧ d.isDigit then
      some (digitVal a * 1000 + digitVal b * 100 + digitVal c * 10 + digitVal d, rest)
    else none
  | _ => none

/-- A single digit, `(\d)`. -/
def take1Digit : List Char → Option (ℕ × List Char)
  | c :: rest => if c.isDigit then some (digitVal c, rest) else none
  | [] => none

/-- Greedy `\d{2,4}`: prefer four digits, then three, then two. -/
def take2to4Digits : List Char → Option (ℕ × List Char)
  | a :: b :: rest =>
    if a.isDigit ∧ b.isDigit then
      match rest with
      | c :: rest2 =>
        if c.isDigit then
          match rest2 with
          | d :: rest3 =>
            if d.isDigit then
              some (digitVal a * 1000 + digitVal b * 100 + digitVal c * 10 + digitVal d, rest3)
            else some (digitVal a * 100 + digitVal b * 10 + digitVal c, rest2)
          | [] => some (digitVal a * 100 + digitVal b * 10 + digitVal c, rest2)
        else some (digitVal a * 10 + digitVal b, rest)
      | [] => some (digitVal a * 10 + digitVal b, rest)
    else none
  | _ => none

/-- Leftmost-match scan: try the pattern at every successive position, as a
JS `String.match` without anchors does. -/
def scanP (p : List Char → Option α) : List Char → Option α
  | [] => p []
  | c :: rest => firstOf (p (c :: rest)) (scanP p rest)

/-- Month-name alternatives in the exact alternation / object-insertion
order of the source (`MONTHS`), paired with the 0-based month index. -/
def MONTH_ALTS : List (List Char × ℕ) :=
  [("january".data, 0), ("jan".data, 0),
   ("february".data, 1), ("feb".data, 1),
   ("march".data, 2), ("mar".data, 2),
   ("april".data, 3), ("apr".data, 3),
   ("may".data, 4),
   ("june".data, 5), ("jun".data, 5),
   ("july".data, 6), ("jul".data, 6),
   ("august".data, 7), ("aug".data, 7),
   ("september".data, 8), ("sep".data, 8), ("sept".data, 8),
   ("october".data, 9), ("oct".data, 9),
   ("november".data, 10), ("nov".data, 10),
   ("december".data, 11), ("dec".data, 11)]

/-- Try each month-name alternative in order, backtracking through the
continuation `k` (regex alternation semantics). -/
def tryMonthAlt (cs : List Char) (k : ℕ → List Char → Option α) : Option α :=
  MONTH_ALTS.findSome? (fun mi => (matchLit mi.1 cs).bind (k mi.2))

/-- Quarter to 0-based month index, `QUARTERS` of the source
(middle month of the quarter: Feb, May, Aug, Nov). -/
def quarterMonth : ℕ → ℕ
  | 1 => 1
  | 2 => 4
  | 3 => 7
  | 4 => 10
  | _ => 0

/-- `String(n).padStart(2, '0')`. -/
def pad2 (n : ℕ) : String :=
  if n < 10 then "0" ++ toString n else toString n

/-- Template-literal date assembly as in the source. The month argument is
used verbatim, exactly as the code interpolates it. -/
def fmtDate (y m d : ℕ) : String :=
  toString y ++ "-" ++ pad2 m ++ "-" ++ pad2 d

/-- Pattern body of `monthRangeYearsPattern`:
month `\s+` year `\s*` dash `\s*` month `\s+` year. -/
def pMonthRangeYears (cs : List Char) : Option (ℕ × ℕ × ℕ × ℕ) :=
  tryMonthAlt cs fun sm r1 =>
    (eatSpaces1 r1).bind fun r2 =>
    (take4Digits r2).bind fun sy =>
    match eatSpaces sy.2 with
    | [] => none
    | d :: r3 =>
      if isDashCh d then
        tryMonthAlt (eatSpaces r3) fun em r4 =>
          (eatSpaces1 r4).bind fun r5 =>
          (take4Digits r5).map fun ey => (sm, sy.1, em, ey.1)
      else none

/-- Pattern body of `monthRangePattern`: month `\s*` dash `\s*` month `\s+` year. -/
def pMonthRange (cs : List Char) : Option (ℕ × ℕ × ℕ) :=
  tryMonthAlt cs fun sm r1 =>
    match eatSpaces r1 with
    | [] => none
    | d :: r2 =>
      if isDashCh d then
        tryMonthAlt (eatSpaces r2) fun em r3 =>
          (eatSpaces1 r3).bind fun r4 =>
          (take4Digits r4).map fun y => (sm, em, y.1)
      else none

/-- Pattern body of `quarterRangePattern`: `q(\d)\s*`dash`\s*q(\d)\s+(\d{4})`. -/
def pQuarterRange (cs : List Char) : Option (ℕ × ℕ × ℕ) :=
  (matchLit "q".data cs).bind fun r1 =>
  (take1Digit r1).bind fun sq =>
  match eatSpaces sq.2 with
  | [] => none
  | d :: r2 =>
    if isDashCh d then
      (matchLit "q".data (eatSpaces r2)).bind fun r3 =>
      (take1Digit r3).bind fun eq2 =>
      (eatSpaces1 eq2.2).bind fun r4 =>
      (take4Digits r4).map fun y => (sq.1, eq2.1, y.1)
    else none

/-- Pattern body of `yearRangePattern`: `(\d{4})\s*`dash`\s*(\d{4})`. -/
def pYearRange (cs : List Char) : Option (ℕ × ℕ) :=
  (take4Digits cs).bind fun sy =>
  match eatSpaces sy.2 with
  | [] => none
  | d :: r1 =>
    if isDashCh d then
      (take4Digits (eatSpaces r1)).map fun ey => (sy.1, ey.1)
    else none

/-- `parseRange` of the source: the four range patterns in order, with the
quarter-range falling through to the year-range when the quarter digits are
outside 1..4 (the source only returns inside the validity check). -/
def parseRange (cs : List Char) : Option CanVal :=
  firstOf
    ((scanP pMonthRangeYears cs).map fun r =>
      ⟨fmtDate r.2.1 (r.1 + 1) 1, some (fmtDate r.2.2.2 (r.2.2.1 + 1) 28), false⟩)
    (firstOf
      ((scanP pMonthRange cs).map fun r =>
        ⟨fmtDate r.2.2 (r.1 + 1) 1, some (fmtDate r.2.2 (r.2.1 + 1) 28), false⟩)
      (firstOf
        ((scanP pQuarterRange cs).bind fun r =>
          if 1 ≤ r.1 ∧ r.1 ≤ 4 ∧ 1 ≤ r.2.1 ∧ r.2.1 ≤ 4 then
            some ⟨fmtDate r.2.2 (quarterMonth r.1) 1,
                  some (fmtDate r.2.2 (quarterMonth r.2.1 + 2) 28), false⟩
          else none)
        ((scanP pYearRange cs).map fun r =>
          ⟨fmtDate r.1 1 1, some (fmtDate r.2 12 31), false⟩)))

/-- `parseFiscalYear`: `(?:fy|fiscal\s+year)\s*(\d{2,4})`, two-digit years
mapped to 2000+NN, resolving to September 30. -/
def parseFiscalYear (cs : List Char) : Option String :=
  (scanP (fun t =>
    (firstOf (matchLit "fy".data t)
      ((matchLit "fiscal".data t).bind fun r1 =>
        (eatSpaces1 r1).bind fun r2 => matchLit "year".data r2)).bind fun r =>
      (take2to4Digits (eatSpaces r)).map (·.1)) cs).map fun y =>
    fmtDate (if y < 100 then y + 2000 else y) 9 30

/-- Pattern body of the quarter pattern `(?:q|quarter)\s*(\d)\s*(?:of\s+)?(\d{4})`,
with the `q` alternative tried before `quarter` and a greedy optional `of`. -/
def pQuarter (cs : List Char) : Option (ℕ × ℕ) :=
  let tail := fun r =>
    (take1Digit (eatSpaces r)).bind fun q =>
    let r2 := eatSpaces q.2
    firstOf
      ((matchLit "of".data r2).bind fun r3 =>
        (eatSpaces1 r3).bind fun r4 =>
        (take4Digits r4).map fun y => (q.1, y.1))
      ((take4Digits r2).map fun y => (q.1, y.1))
  firstOf ((matchLit "q".data cs).bind tail) ((matchLit "quarter".data cs).bind tail)

/-- `parseQuarter`: the validity check 1..4 is applied to the first regex
match; the quarter month index is interpolated without the `+1` that the
other strategies apply. -/
def parseQuarter (cs : List Char) : Option String :=
  match scanP pQuarter cs with
  | some r => if 1 ≤ r.1 ∧ r.1 ≤ 4 then some (fmtDate r.2 (quarterMonth r.1) 1) else none
  | none => none

/-- Season alternatives in object-insertion order with the 0-based month of
the source (`SEASONS`). -/
def SEASON_ALTS : List (List Char × ℕ) :=
  [("spring".data, 3), ("summer".data, 6), ("fall".data, 9),
   ("autumn".data, 9), ("winter".data, 0)]

/-- Pattern body for one season: season `\s+(?:of\s+)?(\d{4})`. -/
def pSeason (nm : List Char) (cs : List Char) : Option ℕ :=
  (matchLit nm cs).bind fun r1 =>
  (eatSpaces1 r1).bind fun r2 =>
  firstOf
    ((matchLit "of".data r2).bind fun r3 =>
      (eatSpaces1 r3).bind fun r4 => (take4Digits r4).map (·.1))
    ((take4Digits r2).map (·.1))

/-- `parseSeason`: the seasons are tried in object order, each searched over
the whole text; winter is pushed to January of the following year. -/
def parseSeason (cs : List Char) : Option String :=
  SEASON_ALTS.findSome? fun si =>
    (scanP (pSeason si.1) cs).map fun y =>
      fmtDate (if si.1 = "winter".data ∧ si.2 = 0 then y + 1 else y) (si.2 + 1) 1

/-- Pattern body for one month name: `(?:by\s+)?`month`\s+(\d{4})`. -/
def pMonth (nm : List Char) (cs : List Char) : Option ℕ :=
  let core := fun r =>
    (matchLit nm r).bind fun r2 =>
    (eatSpaces1 r2).bind fun r3 => (take4Digits r3).map (·.1)
  firstOf
    ((matchLit "by".data cs).bind fun r => (eatSpaces1 r).bind core)
    (core cs)

/-- `parseMonth`: month names tried in object-insertion order, each searched
over the whole text, mapping to day 1 of that month. -/
def parseMonth (cs : List Char) : Option String :=
  MONTH_ALTS.findSome? fun mi =>
    (scanP (pMonth mi.1) cs).map fun y => fmtDate y (mi.2 + 1) 1

/-- Vague-qualifier patterns of `parseVaguePeriod`, with the month number the
source stores (`early` 2, `mid` 7, `late` 10). -/
def VAGUE_ALTS : List (List Char × ℕ) :=
  [("early".data, 2), ("mid".data, 7), ("late".data, 10)]

/-- Pattern body for one qualifier: qualifier `[- ](\d{4})`. -/
def pVague (nm : List Char) (cs : List Char) : Option ℕ :=
  (matchLit nm cs).bind fun r =>
  match r with
  | c :: r2 => if c = '-' ∨ c = ' ' then (take4Digits r2).map (·.1) else none
  | [] => none

/-- `parseVaguePeriod`: the stored month number is interpolated verbatim
(`String(pattern.month)`), without the `+1` of the month/season strategies. -/
def parseVaguePeriod (cs : List Char) : Option String :=
  VAGUE_ALTS.findSome? fun vi =>
    (scanP (pVague vi.1) cs).map fun y => fmtDate y vi.2 1

/-- `parseEndOfYear`: `(?:end\s+of|by\s+the\s+end\s+of)\s+(\d{4})` mapping to
December 31. -/
def parseEndOfYear (cs : List Char) : Option String :=
  (scanP (fun t =>
    (firstOf
      ((matchLit "end".data t).bind fun r1 =>
        (eatSpaces1 r1).bind fun r2 => matchLit "of".data r2)
      ((matchLit "by".data t).bind fun r1 =>
        (eatSpaces1 r1).bind fun r2 =>
        (matchLit "the".data r2).bind fun r3 =>
        (eatSpaces1 r3).bind fun r4 =>
        (matchLit "end".data r4).bind fun r5 =>
        (eatSpaces1 r5).bind fun r6 => matchLit "of".data r6)).bind fun r =>
      (eatSpaces1 r).bind fun r7 => (take4Digits r7).map (·.1)) cs).map fun y =>
    fmtDate y 12 31

/-- `parseStartingIn`: `(?:start(?:ing)?\s+in|beginning\s+(?:in|of))\s+(\d{4})`
mapping to January 1. -/
def parseStartingIn (cs : List Char) : Option String :=
  (scanP (fun t =>
    (firstOf
      ((matchLit "start".data t).bind fun r1 =>
        let inPart := fun r => (eatSpaces1 r).bind fun r2 => matchLit "in".data r2
        firstOf ((matchLit "ing".data r1).bind inPart) (inPart r1))
      ((matchLit "beginning".data t).bind fun r1 =>
        (eatSpaces1 r1).bind fun r2 =>
        firstOf (matchLit "in".data r2) (matchLit "of".data r2))).bind fun r =>
      (eatSpaces1 r).bind fun r3 => (take4Digits r3).map (·.1)) cs).map fun y =>
    fmtDate y 1 1

/-- Core of the standalone-year pattern after its boundary: `(\d{4})(?:\s|$)`. -/
def yearCore (cs : List Char) : Option ℕ :=
  (take4Digits cs).bind fun y =>
    match y.2 with
    | [] => some y.1
    | c :: _ => if isSpaceCh c then some y.1 else none

/-- Scan for `(?:^|\s)(\d{4})(?:\s|$)` at positions after a whitespace
character (the start-of-string position is tried separately first). -/
def scanYearAux : List Char → Option ℕ
  | [] => none
  | c :: rest =>
    if isSpaceCh c then
      match yearCore rest with
      | some y => some y
      | none => scanYearAux rest
    else scanYearAux rest

/-- `parseYear`: `by <year>` in range means January 1; otherwise a standalone
in-range year means July 1 (midpoint heuristic); out-of-range years fall
through exactly as the source does. -/
def parseYear (cs : List Char) : Option String :=
  let standalone :=
    match firstOf (yearCore cs) (scanYearAux cs) with
    | some y => if 2000 ≤ y ∧ y ≤ 2100 then some (fmtDate y 7 1) else none
    | none => none
  match scanP (fun t =>
      (matchLit "by".data t).bind fun r =>
      (eatSpaces1 r).bind fun r2 => (take4Digits r2).map (·.1)) cs with
  | some y => if 2000 ≤ y ∧ y ≤ 2100 then some (fmtDate y 1 1) else standalone
  | none => standalone

/-- Normalization of `parse`: lowercase then trim. -/
def normalize (text : String) : List Char :=
  (((text.data.map Char.toLower).dropWhile isSpaceCh).reverse.dropWhile isSpaceCh).reverse

/-- Wrap a single-date strategy result as a point value. -/
def mkPoint (d : String) : CanVal := ⟨d, none, false⟩

/-- The ongoing literals of `parse`. -/
def isOngoingLit (n : List Char) : Prop :=
  n = "ongoing".data ∨ n = "continuous".data ∨ n = "tbd".data ∨ n = "indefinite".data

instance (n : List Char) : Decidable (isOngoingLit n) := by
  unfold isOngoingLit; infer_instance

/-- `parse` of the source. `g` models the external generic date parse
`new Date(text)` composed with `formatDate` (applied to the raw text), and
`today` models `formatDate(new Date())`. The `try`/`catch` of the source is
vacuous here: every embedded strategy is total. -/
def parse (g : String → Option String) (today : String) (text : String) : Option CanVal :=
  if text = "" then none
  else if isOngoingLit (normalize text) then some ⟨today, none, true⟩
  else
    firstOf (parseRange (normalize text))
      (firstOf ((parseFiscalYear (normalize text)).map mkPoint)
        (firstOf ((parseQuarter (normalize text)).map mkPoint)
          (firstOf ((parseSeason (normalize text)).map mkPoint)
            (firstOf ((parseMonth (normalize text)).map mkPoint)
              (firstOf ((parseVaguePeriod (normalize text)).map mkPoint)
                (firstOf ((parseEndOfYear (normalize text)).map mkPoint)
                  (firstOf ((parseStartingIn (normalize text)).map mkPoint)
                    (firstOf ((parseYear (normalize text)).map mkPoint)
                      ((g text).map mkPoint)))))))))

/-- The external fallback used in concrete witnesses: a generic date parse
that never succeeds. -/
def gNone : String → Option String := fun _ => none

/-- Chronological value of an ISO `YYYY-MM-DD` string: the digits read as a
single number `YYYYMMDD`, so that the numeric order is the date order. -/
def isoDateVal (s : String) : ℕ :=
  s.data.foldl (fun acc c => if c.isDigit then acc * 10 + digitVal c else acc) 0

/-- All pattern strategies fail on the normalized text. -/
def strategiesFail (n : List Char) : Prop :=
  ¬isOngoingLit n ∧ parseRange n = none ∧ parseFiscalYear n = none ∧
    parseQuarter n = none ∧ parseSeason n = none ∧ parseMonth n = none ∧
    parseVaguePeriod n = none ∧ parseEndOfYear n = none ∧
    parseStartingIn n = none ∧ parseYear n = none

/-- Point classification of a canonical value. -/
def isPointVal (v : CanVal) : Prop := v.endDate = none ∧ v.isOngoing = false

/-- Range classification of a canonical value. -/
def isRangeVal (v : CanVal) : Prop := v.endDate ≠ none ∧ v.isOngoing = false

/-- Ongoing classification of a canonical value. -/
def isOngoingVal (v : CanVal) : Prop := v.isOngoing = true ∧ v.endDate = none

end DP

namespace RD

/-- View modes of the renderer state (`single`, `entity`, `goal`). -/
inductive ViewMode where
  | single : ViewMode
  | entity : ViewMode
  | goal : ViewMode
deriving DecidableEq, Repr

/-- An event as the layout engine consumes it. `start` is the value of
`new Date(event.startDate || event.computedDate)` (none when invalid),
`endDate` the parsed end date when present and valid, both in milliseconds
since the epoch; `entities`/`secondaryEntities` are the array-normalized
entity lists and `goal` the goal key. -/
structure LEvent where
  start : Option Int
  endDate : Option Int
  isOngoing : Bool
  entities : List String
  secondaryEntities : List String
  goal : String
  id : ℕ
deriving DecidableEq, Repr

/-- Renderer viewport state (the fields of `state` the core transforms use). -/
structure RState where
  viewMode : ViewMode
  zoom : ℚ
  panX : ℚ
  panY : ℚ
  events : List LEvent
deriving DecidableEq, Repr

/-- An event with resolved pixel positions, the `{ event, x, x2, date }`
records the layout builds. -/
structure EWX where
  event : LEvent
  x : ℚ
  x2 : ℚ
  date : Int
deriving DecidableEq, Repr

/-- A layout placement `{ event, x, x2, y, level }`. For the split view the
`y` field holds the `labelYOffset` and `level` records the level index. -/
structure Placement where
  event : LEvent
  x : ℚ
  x2 : ℚ
  y : ℚ
  level : ℕ
deriving DecidableEq, Repr

/-- Time-to-pixel mapping `axisStartX + (date - startDate) * scale`. -/
def dateToX (axisX scale sd d : ℚ) : ℚ := axisX + (d - sd) * scale

/-- Scale computation `(availableWidth * zoom) / (endDate - startDate)`. -/
def viewScale (availW zoom span : ℚ) : ℚ := availW * zoom / span

/-- Axis origin of the single timeline: `MARGIN.left + panX`. -/
def singleAxisStartX (panX : ℚ) : ℚ := 100 + panX

/-- Axis origin of the split timeline: `SPLIT_VIEW_LABEL_WIDTH + panX`. -/
def splitAxisStartX (panX : ℚ) : ℚ := 180 + panX

/-- Resolve an event's pixel positions: `x` from the start date, `x2` from a
valid end date when the event is not ongoing, otherwise `x2 = x`; events
with an invalid start are dropped by the caller (`filter(e => e !== null)`). -/
def toEWX (axisStartX scale : ℚ) (startDate : Int) (e : LEvent) : Option EWX :=
  match e.start with
  | none => none
  | some d =>
    let x := dateToX axisStartX scale (startDate : ℚ) (d : ℚ)
    match e.endDate, e.isOngoing with
    | some ed, false => some ⟨e, x, dateToX axisStartX scale (startDate : ℚ) (ed : ℚ), d⟩
    | _, _ => some ⟨e, x, x, d⟩

/-- Stable insertion preserving the original order of equal dates; an
element is inserted after every element whose date is not greater. -/
def insertSorted (e : EWX) : List EWX → List EWX
  | [] => [e]
  | a :: as => if e.date < a.date then e :: a :: as else a :: insertSorted e as

/-- The stable ascending sort `eventsWithX.sort((a, b) => a.date - b.date)`
(JS `Array.prototype.sort` is stable; a stable sort is unique, so the stable
insertion sort computes the same list). -/
def sortByDate (l : List EWX) : List EWX :=
  l.foldl (fun acc e => insertSorted e acc) []

/-- `fitsInLevelSingle` of `calculateEventPositions`: the candidate interval
must avoid every existing member's interval inflated by `MIN_SPACING = 200`
on both sides. -/
def fitsInLevelSingle (level : List EWX) (x x2 : ℚ) : Bool :=
  level.all fun ex => decide (x2 < ex.x - 200) || decide (x > ex.x2 + 200)

/-- `fitsInLevel` of `renderSplitTimeline`: same check with
`MIN_SPACING = 80`. -/
def fitsInLevel (level : List EWX) (x x2 : ℚ) : Bool :=
  level.all fun ex => decide (x2 < ex.x - 80) || decide (x > ex.x2 + 80)

/-- Date-label conflict test of `assignLevelsToEvents`: the event interval
widened by 30 must miss the reserved label span. -/
def dateLabelConflict (dls : List (ℚ × ℚ)) (x x2 : ℚ) : Bool :=
  dls.any fun dl => !(decide (x2 + 30 < dl.1) || decide (x - 30 > dl.2))

/-- Level acceptance of `assignLevelsToEvents`: only the most recently
placed member of the level is checked for spacing, plus the date-label
conflict test. -/
def levelAccepts (spacing : ℚ) (dls : List (ℚ × ℚ)) (lvl : List EWX) (e : EWX) : Bool :=
  match lvl.getLast? with
  | some last => decide (last.x2 + spacing < e.x) && !dateLabelConflict dls e.x e.x2
  | none => false

/-- Place an event into the first level the acceptance test admits,
appending a fresh level otherwise (first-fit, as the `for` loop with
`levels.push` does). -/
def placeInLevels (acc : List EWX → Bool) (e : EWX) : List (List EWX) → List (List EWX)
  | [] => [[e]]
  | l :: ls => if acc l then (l ++ [e]) :: ls else l :: placeInLevels acc e ls

/-- Run the greedy first-fit assignment over the sorted events. -/
def runAssign (acc : List EWX → EWX → Bool) : List EWX → List (List EWX) → List (List EWX)
  | [], levels => levels
  | e :: es, levels => runAssign acc es (placeInLevels (fun l => acc l e) e levels)

/-- `assignLevelsToEvents` of the source (used when an entity filter is
active), with its check-the-last-member acceptance. -/
def assignLevelsToEvents (eventsWithX : List EWX) (spacing : ℚ)
    (dls : List (ℚ × ℚ)) : List (List EWX) :=
  runAssign (fun l e => levelAccepts spacing dls l e) eventsWithX []

/-- Emit placements level by level, mapping the level index to a `y`
position (`levels.forEach((level, levelIndex) => ...)`). -/
def levelsToPositions (mkY : ℕ → ℚ) : ℕ → List (List EWX) → List Placement
  | _, [] => []
  | i, lvl :: ls => lvl.map (fun m => ⟨m.event, m.x, m.x2, mkY i, i⟩) ++
      levelsToPositions mkY (i + 1) ls

/-- `calculateEventPositions` of the source. `filterEntity` is
`state.filters.entity` (the empty string means no active filter, matching
JS truthiness); `endDate` is accepted and unused, as in the source. -/
def calculateEventPositions (events : List LEvent) (startDate endDate : Int)
    (axisStartX scale axisY : ℚ) (dls : List (ℚ × ℚ)) (filterEntity : String) :
    List Placement :=
  let eventsWithX := sortByDate (events.filterMap (toEWX axisStartX scale startDate))
  if filterEntity = "" then
    let levels := runAssign (fun l e => fitsInLevelSingle l e.x e.x2) eventsWithX []
    levelsToPositions
      (fun i => axisY + (if i % 2 = 0 then (-1 : ℚ) else 1) * ((i / 2 : ℕ) + 2) * 30)
      0 levels
  else
    let primaryEvents := eventsWithX.filter fun m => m.event.entities.contains filterEntity
    let secondaryEvents := eventsWithX.filter fun m => !m.event.entities.contains filterEntity
    let primaryLevels := assignLevelsToEvents primaryEvents 200 dls
    let secondaryLevels := assignLevelsToEvents secondaryEvents 200 dls
    levelsToPositions (fun i => axisY - ((i : ℚ) + 1) * 30) 0 primaryLevels ++
      levelsToPositions (fun i => axisY + ((i : ℚ) + 1) * 30) 0 secondaryLevels

/-- Per-row layout of `renderSplitTimeline`: resolve positions, sort, split
into primary/secondary (for the entity split), assign levels with the
check-all 80px rule, then emit label offsets; the `y` field carries the
`labelYOffset` (negative above the row line, positive below). -/
def splitRowPositions (rowEvents : List LEvent) (key : String) (splitByEntity : Bool)
    (startDate : Int) (axisStartX scale : ℚ) : List Placement :=
  let ewx := sortByDate (rowEvents.filterMap (toEWX axisStartX scale startDate))
  let primaryEvents := if splitByEntity then ewx.filter (fun m => m.event.entities.contains key) else ewx
  let secondaryEvents := if splitByEntity then ewx.filter (fun m => !m.event.entities.contains key) else []
  let primaryLevels := runAssign (fun l e => fitsInLevel l e.x e.x2) primaryEvents []
  let secondaryLevels := runAssign (fun l e => fitsInLevel l e.x e.x2) secondaryEvents []
  levelsToPositions (fun i => -((i : ℚ) * 30 + 15)) 0 primaryLevels ++
    levelsToPositions (fun i => (i : ℚ) * 30 + 20) 0 secondaryLevels

/-- Separation property two placements in one level must satisfy: their raw
intervals are more than `s` apart (the later one starts beyond the earlier
one's end plus spacing). -/
def sepCond (s axisY : ℚ) (p q : Placement) : Prop :=
  p.level = q.level → ((p.y < axisY) ↔ (q.y < axisY)) →
    p.x2 + s < q.x ∨ q.x2 + s < p.x

/-- Separation of two resolved events at spacing `s`. -/
def sepAt (s : ℚ) (a b : EWX) : Prop := a.x2 + s < b.x ∨ b.x2 + s < a.x

/-- One-sided (placement-ordered) separation at spacing `s`. -/
def stepSep (s : ℚ) (a b : EWX) : Prop := a.x2 + s < b.x

/-- All dates of all events, as `constrainPan` collects them (start date when
valid, then end date when present and valid, per event in order). -/
def datesOf (events : List LEvent) : List Int :=
  events.flatMap fun e =>
    (match e.start with | some d => [d] | none => []) ++
      (match e.endDate with | some d => [d] | none => [])

/-- `Math.min` over a nonempty list (0 for the empty list, which the guards
exclude). -/
def listMin : List Int → Int
  | [] => 0
  | d :: ds => ds.foldl min d

/-- `Math.max` over a nonempty list. -/
def listMax : List Int → Int
  | [] => 0
  | d :: ds => ds.foldl max d

/-- `Math.max(lo, Math.min(hi, v))`. -/
def clampQ (lo hi v : ℚ) : ℚ := max lo (min hi v)

/-- `getRowHeight`: rows widen as zoom drops below the 2.5 threshold. -/
def getRowHeight (zoom : ℚ) : ℚ :=
  if 5 / 2 ≤ zoom then 80 else 80 * ((5 / 2) / zoom)

/-- Row count of the split views: distinct entities (primary and secondary)
for the entity split, distinct nonempty goals for the goal split. -/
def rowCountOf (vm : ViewMode) (events : List LEvent) : ℕ :=
  match vm with
  | .entity => ((events.flatMap fun e => e.entities ++ e.secondaryEntities).dedup).length
  | .goal => ((events.filterMap fun e => if e.goal = "" then none else some e.goal).dedup).length
  | .single => 0

/-- The content-bounds padding: `(maxDate - minDate) * 0.1 || 86400000 * 30`
(the JS `||` replaces a zero product with 30 days). -/
def contentPadding (minD maxD : Int) : ℚ :=
  if ((maxD : ℚ) - (minD : ℚ)) * (1 / 10) = 0 then 86400000 * 30
  else ((maxD : ℚ) - (minD : ℚ)) * (1 / 10)

/-- Padded content time range of `renderSplitTimeline` /
`renderSingleTimeline` (which also push `today` into the date pool). -/
def contentBounds (events : List LEvent) (today : Int) : ℚ × ℚ :=
  let ds := datesOf events ++ [today]
  let minD := listMin ds
  let maxD := listMax ds
  ((minD : ℚ) - contentPadding minD maxD, (maxD : ℚ) + contentPadding minD maxD)

/-- Horizontal clamp of `constrainPan`: the content's left edge cannot pass
the right screen edge and its right edge cannot pass the (mode-dependent)
left margin. -/
def constrainedPanX (w : ℚ) (vm : ViewMode) (zoom : ℚ) (events : List LEvent)
    (panX : ℚ) : ℚ :=
  let ds := datesOf events
  let minD := listMin ds
  let maxD := listMax ds
  let padding := contentPadding minD maxD
  let startD := (minD : ℚ) - padding
  let endD := (maxD : ℚ) + padding
  let leftMargin : ℚ := if vm = .entity ∨ vm = .goal then 180 else 100
  let timelineWidth := w - leftMargin - 100
  let scale := timelineWidth * zoom / (endD - startD)
  let totalTimelineWidth := (endD - startD) * scale
  clampQ (-(totalTimelineWidth - leftMargin)) (w - leftMargin) panX

/-- Vertical clamp of `constrainPan`, active only in the split views with at
least one row. -/
def constrainedPanY (h : ℚ) (vm : ViewMode) (zoom : ℚ) (events : List LEvent)
    (panY : ℚ) : ℚ :=
  if vm = .entity ∨ vm = .goal then
    let rc := rowCountOf vm events
    if 0 < rc then
      clampQ (-((rc : ℚ) * getRowHeight zoom - h + 60 + 60)) 0 panY
    else panY
  else panY

/-- `constrainPan` of the source (the svg element is assumed present, its
bounding rectangle supplying `w` and `h`); with no events, or no valid
event dates, the state is returned untouched. -/
def constrainPan (w h : ℚ) (s : RState) : RState :=
  if s.events.isEmpty then s
  else if (datesOf s.events).isEmpty then s
  else
    { s with
      panX := constrainedPanX w s.viewMode s.zoom s.events s.panX,
      panY := constrainedPanY h s.viewMode s.zoom s.events s.panY }

/-- `setZoom` of the source (svg present): clamp the zoom to `[0.1, 10]`,
re-solve `panX` so that the timeline position previously at the horizontal
viewport center stays there, re-solve `panY` against the row-height change
in the split views, then clamp the pan. The anchoring always uses
`MARGIN.left = 100`, regardless of the view mode. -/
def setZoom (w h : ℚ) (s : RState) (newZoom : ℚ) : RState :=
  let viewportCenterX := w / 2
  let viewportCenterY := h / 2
  let timelinePosAtCenter := viewportCenterX - s.panX - 100
  let relativePos := timelinePosAtCenter / s.zoom
  let z2 := max (1 / 10) (min 10 newZoom)
  let s1 : RState := { s with zoom := z2, panX := viewportCenterX - relativePos * z2 - 100 }
  let s2 : RState :=
    if s.viewMode = .entity ∨ s.viewMode = .goal then
      let oldRH := getRowHeight s.zoom
      let newRH := getRowHeight z2
      if oldRH = newRH then s1
      else
        { s1 with
          panY := viewportCenterY - 60 -
            ((viewportCenterY - s.panY - 60) / oldRH) * newRH }
    else s1
  constrainPan w h s2

/-- Concrete event for the zoom-anchoring counterexample: a range from 0 to
6000 (ms). -/
def cexEvent : LEvent := ⟨some 0, some 6000, false, ["a"], [], "g", 0⟩

/-- Concrete split-view state for the zoom-anchoring counterexample. -/
def cexState : RState := ⟨ViewMode.entity, 1, 0, 0, [cexEvent]⟩

/-- Concrete point events for the level-spacing counterexample. -/
def cexP1 : LEvent := ⟨some 0, none, false, ["a"], [], "g", 1⟩

/-- Second point event, 201px to the right of the first at scale 1. -/
def cexP2 : LEvent := ⟨some 201, none, false, ["a"], [], "g", 2⟩

/-- Concrete reversed-range event (start after end) for the range-ordering
counterexample. -/
def cexRev : LEvent := ⟨some 100, some 0, false, ["a"], [], "g", 3⟩

/-- Concrete well-ordered range event for witnesses. -/
def wEvent : LEvent := ⟨some 0, some 5, false, ["a"], [], "g", 4⟩

/-- Concrete unified-view state for the clamp-break counterexample: zoomed
far out (zoom 1/10) with the pan at the clamp's upper bound `w - 100`. -/
def cexSingleState : RState := ⟨ViewMode.single, 1 / 10, 900, 0, [cexEvent]⟩

/-- Concrete unified-view state for the anchoring witness, with events
present and the clamp inactive. -/
def wSingleState : RState := ⟨ViewMode.single, 1, 0, 0, [cexEvent]⟩

end RD

open DP RD

/-! ### General lemmas about the strategy combinator -/

theorem firstOf_eq_none {a b : Option α} : firstOf a b = none ↔ a = none ∧ b = none := by
  cases a <;> simp [firstOf]

theorem firstOf_eq_some {a b : Option α} {x : α} :
    firstOf a b = some x ↔ a = some x ∨ (a = none ∧ b = some x) := by
  cases a <;> simp [firstOf]

theorem parseRange_shape {n : List Char} {r : CanVal}
    (h : parseRange n = some r) : r.endDate ≠ none ∧ r.isOngoing = false := by
  unfold parseRange at h
  rcases firstOf_eq_some.mp h with h1 | ⟨-, h1⟩
  · rcases Option.map_eq_some'.mp h1 with ⟨a, -, rfl⟩
    exact ⟨by simp, rfl⟩
  · rcases firstOf_eq_some.mp h1 with h2 | ⟨-, h2⟩
    · rcases Option.map_eq_some'.mp h2 with ⟨a, -, rfl⟩
      exact ⟨by simp, rfl⟩
    · rcases firstOf_eq_some.mp h2 with h3 | ⟨-, h3⟩
      · rcases Option.bind_eq_some.mp h3 with ⟨a, -, h4⟩
        by_cases hq : 1 ≤ a.1 ∧ a.1 ≤ 4 ∧ 1 ≤ a.2.1 ∧ a.2.1 ≤ 4
        · rw [if_pos hq] at h4
          cases h4
          exact ⟨by simp, rfl⟩
        · rw [if_neg hq] at h4
          cases h4
      · rcases Option.map_eq_some'.mp h3 with ⟨a, -, rfl⟩
        exact ⟨by simp, rfl⟩

/-! ### Claim theorems about the date parser -/

/-- C1: evaluation of the embedded `parse` at the quarter input. The source
comments document `QUARTERS` as 0-based month indices (q1 is "February"),
but `parseQuarter` interpolates the index without the `+1` the month and
season strategies apply, so `"Q1 2026"` resolves to January 1, not the
documented February 1. -/
theorem parse_quarter_jan_bug (g : String → Option String) (today : String) :
    parse g today "Q1 2026" = some ⟨"2026-01-01", none, false⟩ := rfl

/-- C5: evaluation of the embedded `parse` at the vague-qualifier inputs.
`parseVaguePeriod` interpolates its stored month numbers verbatim, so
`early` resolves to February 1 (its comment says March) and `late` to
October 1 (its comment says November), while `mid` happens to agree with
its July comment. -/
theorem parse_vague_month_bug (g : String → Option String) (today : String) :
    parse g today "early-2026" = some ⟨"2026-02-01", none, false⟩ ∧
      parse g today "late-2026" = some ⟨"2026-10-01", none, false⟩ ∧
      parse g today "mid-2027" = some ⟨"2027-07-01", none, false⟩ :=
  ⟨rfl, rfl, rfl⟩

/-- C10: a quarter digit outside 1..4 is rejected by the quarter strategy,
but the bare-year fallback still matches the standalone 4-digit year, so
`"q5 2026"` resolves to the July-1 midpoint of 2026 rather than null. -/
theorem parse_q5_fallback_july (g : String → Option String) (today : String) :
    parse g today "q5 2026" = some ⟨"2026-07-01", none, false⟩ := rfl

/-- C4: `parse` is a total function of its inputs (the embedded strategies
never fail to produce an `Option`), and it returns `none` only when every
pattern strategy fails on the normalized text and the generic calendar-date
parse `g` of the raw text also fails. The hypothesis on `g` records that
the JS generic parse `new Date("")` is invalid. -/
theorem parse_none_only_all_fail (g : String → Option String) (today text : String)
    (hg : g "" = none) (hp : parse g today text = none) :
    strategiesFail (normalize text) ∧ g text = none := by
  by_cases h0 : text = ""
  · subst h0
    exact ⟨⟨by decide, rfl, rfl, rfl, rfl, rfl, rfl, rfl, rfl, rfl⟩, hg⟩
  · unfold parse at hp
    rw [if_neg h0] at hp
    by_cases hol : isOngoingLit (normalize text)
    · rw [if_pos hol] at hp
      cases hp
    · rw [if_neg hol] at hp
      simp only [firstOf_eq_none, Option.map_eq_none'] at hp
      exact ⟨⟨hol, hp.1, hp.2.1, hp.2.2.1, hp.2.2.2.1, hp.2.2.2.2.1,
        hp.2.2.2.2.2.1, hp.2.2.2.2.2.2.1, hp.2.2.2.2.2.2.2.1,
        hp.2.2.2.2.2.2.2.2.1⟩, hp.2.2.2.2.2.2.2.2.2⟩

/-- C4 witness: at the unparseable input of the specification's test
scenarios, all strategies fail and the fallback fails. -/
theorem parse_none_only_all_fail_wit :
    strategiesFail (normalize "not a date at all") ∧ gNone "not a date at all" = none :=
  parse_none_only_all_fail gNone "2025-06-15" "not a date at all" rfl rfl

/-- C8: every non-null result of `parse` is exactly one of a point, a range
or an ongoing value, and an ongoing value never carries an end date. -/
theorem parse_value_trichotomy (g : String → Option String) (today text : String)
    (v : CanVal) (h : parse g today text = some v) :
    ((isPointVal v ∧ ¬isRangeVal v ∧ ¬isOngoingVal v) ∨
      (isRangeVal v ∧ ¬isPointVal v ∧ ¬isOngoingVal v) ∨
      (isOngoingVal v ∧ ¬isPointVal v ∧ ¬isRangeVal v)) ∧
    (v.isOngoing = true → v.endDate = none) := by
  have shape : (v.endDate = none ∧ v.isOngoing = false) ∨
      (v.endDate ≠ none ∧ v.isOngoing = false) ∨
      (v.isOngoing = true ∧ v.endDate = none) := by
    by_cases h0 : text = ""
    · rw [h0] at h
      unfold parse at h
      cases h
    · unfold parse at h
      rw [if_neg h0] at h
      by_cases hol : isOngoingLit (normalize text)
      · rw [if_pos hol] at h
        cases h
        exact Or.inr (Or.inr ⟨rfl, rfl⟩)
      · rw [if_neg hol] at h
        rcases firstOf_eq_some.mp h with hr | ⟨-, h⟩
        · exact Or.inr (Or.inl (parseRange_shape hr))
        · have point : ∀ o : Option String, o.map mkPoint = some v →
              v.endDate = none ∧ v.isOngoing = false := by
            intro o ho
            rcases Option.map_eq_some'.mp ho with ⟨d, -, rfl⟩
            exact ⟨rfl, rfl⟩
          rcases firstOf_eq_some.mp h with hr | ⟨-, h⟩
          · exact Or.inl (point _ hr)
          rcases firstOf_eq_some.mp h with hr | ⟨-, h⟩
          · exact Or.inl (point _ hr)
          rcases firstOf_eq_some.mp h with hr | ⟨-, h⟩
          · exact Or.inl (point _ hr)
          rcases firstOf_eq_some.mp h with hr | ⟨-, h⟩
          · exact Or.inl (point _ hr)
          rcases firstOf_eq_some.mp h with hr | ⟨-, h⟩
          · exact Or.inl (point _ hr)
          rcases firstOf_eq_some.mp h with hr | ⟨-, h⟩
          · exact Or.inl (point _ hr)
          rcases firstOf_eq_some.mp h with hr | ⟨-, h⟩
          · exact Or.inl (point _ hr)
          rcases firstOf_eq_some.mp h with hr | ⟨-, h⟩
          · exact Or.inl (point _ hr)
          exact Or.inl (point _ h)
  rcases shape with ⟨he, ho⟩ | ⟨he, ho⟩ | ⟨ho, he⟩
  · refine ⟨Or.inl ⟨⟨he, ho⟩, ?_, ?_⟩, fun hx => he⟩
    · rintro ⟨hne, -⟩
      exact hne he
    · rintro ⟨hx, -⟩
      rw [ho] at hx
      cases hx
  · refine ⟨Or.inr (Or.inl ⟨⟨he, ho⟩, ?_, ?_⟩), fun hx => ?_⟩
    · rintro ⟨hn, -⟩
      exact he hn
    · rintro ⟨hx, -⟩
      rw [ho] at hx
      cases hx
    · rw [ho] at hx
      cases hx
  · refine ⟨Or.inr (Or.inr ⟨⟨ho, he⟩, ?_, ?_⟩), fun _ => he⟩
    · rintro ⟨-, hx⟩
      rw [ho] at hx
      cases hx
    · rintro ⟨hne, -⟩
      exact hne he

/-- C8 witness: the trichotomy at a concrete parsed value (the quarter
fallback result for `"q5 2026"`). -/
theorem parse_value_trichotomy_wit :
    ((isPointVal ⟨"2026-07-01", none, false⟩ ∧ ¬isRangeVal ⟨"2026-07-01", none, false⟩ ∧
        ¬isOngoingVal ⟨"2026-07-01", none, false⟩) ∨
      (isRangeVal ⟨"2026-07-01", none, false⟩ ∧ ¬isPointVal ⟨"2026-07-01", none, false⟩ ∧
        ¬isOngoingVal ⟨"2026-07-01", none, false⟩) ∨
      (isOngoingVal ⟨"2026-07-01", none, false⟩ ∧ ¬isPointVal ⟨"2026-07-01", none, false⟩ ∧
        ¬isRangeVal ⟨"2026-07-01", none, false⟩)) ∧
    ((⟨"2026-07-01", none, false⟩ : CanVal).isOngoing = true →
      (⟨"2026-07-01", none, false⟩ : CanVal).endDate = none) :=
  parse_value_trichotomy gNone "2025-06-15" "q5 2026" ⟨"2026-07-01", none, false⟩ rfl

/-! ### Sorting lemmas -/

theorem mem_insertSorted {m e : EWX} :
    ∀ {l : List EWX}, m ∈ insertSorted e l → m = e ∨ m ∈ l := by
  intro l
  induction l with
  | nil =>
    intro h
    simpa [insertSorted] using h
  | cons a as ih =>
    intro h
    rw [insertSorted] at h
    split at h
    · rcases List.mem_cons.mp h with rfl | h2
      · exact Or.inl rfl
      · exact Or.inr h2
    · rcases List.mem_cons.mp h with rfl | h2
      · exact Or.inr (List.mem_cons_self _ _)
      · rcases ih h2 with h3 | h3
        · exact Or.inl h3
        · exact Or.inr (List.mem_cons_of_mem _ h3)

theorem insertSorted_pairwise {e : EWX} :
    ∀ {l : List EWX}, l.Pairwise (fun a b => a.date ≤ b.date) →
      (insertSorted e l).Pairwise (fun a b => a.date ≤ b.date) := by
  intro l
  induction l with
  | nil =>
    intro _
    simp [insertSorted]
  | cons a as ih =>
    intro hp
    rcases List.pairwise_cons.mp hp with ⟨ha, has⟩
    rw [insertSorted]
    split
    case isTrue hc =>
      refine List.pairwise_cons.mpr ⟨?_, hp⟩
      intro b hb
      rcases List.mem_cons.mp hb with rfl | hb2
      · exact le_of_lt hc
      · exact le_trans (le_of_lt hc) (ha b hb2)
    case isFalse hc =>
      refine List.pairwise_cons.mpr ⟨?_, ih has⟩
      intro b hb
      rcases mem_insertSorted hb with rfl | hb2
      · exact le_of_not_lt hc
      · exact ha b hb2

theorem sortByDate_pairwise (l : List EWX) :
    (sortByDate l).Pairwise (fun a b => a.date ≤ b.date) := by
  have key : ∀ (l acc : List EWX),
      acc.Pairwise (fun a b => a.date ≤ b.date) →
      (l.foldl (fun acc e => insertSorted e acc) acc).Pairwise
        (fun a b => a.date ≤ b.date) := by
    intro l
    induction l with
    | nil => intro acc h; exact h
    | cons e es ih => intro acc h; exact ih _ (insertSorted_pairwise h)
  exact key l [] (by simp)

theorem mem_sortByDate {m : EWX} {l : List EWX} (h : m ∈ sortByDate l) : m ∈ l := by
  have key : ∀ (l acc : List EWX),
      m ∈ l.foldl (fun acc e => insertSorted e acc) acc → m ∈ acc ∨ m ∈ l := by
    intro l
    induction l with
    | nil => intro acc h; exact Or.inl h
    | cons e es ih =>
      intro acc h
      rcases ih _ h with h2 | h2
      · rcases mem_insertSorted h2 with rfl | h3
        · exact Or.inr (List.mem_cons_self _ _)
        · exact Or.inl h3
      · exact Or.inr (List.mem_cons_of_mem _ h2)
  rcases key l [] h with h2 | h2
  · exact absurd h2 (List.not_mem_nil m)
  · exact h2

theorem toEWX_spec {ax sc : ℚ} {sd : Int} {e : LEvent} {m : EWX}
    (he : toEWX ax sc sd e = some m) :
    m.event = e ∧ e.start = some m.date ∧
      m.x = dateToX ax sc (sd : ℚ) (m.date : ℚ) ∧
      (m.x2 = m.x ∨ ∃ ed, e.endDate = some ed ∧
        m.x2 = dateToX ax sc (sd : ℚ) (ed : ℚ)) := by
  unfold toEWX at he
  split at he
  · cases he
  · rename_i d hstart
    split at he
    · rename_i ed hend hong
      cases he
      exact ⟨rfl, hstart, rfl, Or.inr ⟨ed, hend, rfl⟩⟩
    · cases he
      exact ⟨rfl, hstart, rfl, Or.inl rfl⟩

theorem sorted_x_mono {ax sc : ℚ} {sd : Int} {events : List LEvent} (hscale : 0 ≤ sc) :
    (sortByDate (events.filterMap (toEWX ax sc sd))).Pairwise
      (fun a b => a.x ≤ b.x) := by
  refine List.Pairwise.imp_of_mem ?_ (sortByDate_pairwise _)
  intro a b ha hb hd
  obtain ⟨ea, -, hea⟩ := List.mem_filterMap.mp (mem_sortByDate ha)
  obtain ⟨eb, -, heb⟩ := List.mem_filterMap.mp (mem_sortByDate hb)
  obtain ⟨-, -, hax, -⟩ := toEWX_spec hea
  obtain ⟨-, -, hbx, -⟩ := toEWX_spec heb
  rw [hax, hbx]
  unfold dateToX
  have hcast : (a.date : ℚ) ≤ (b.date : ℚ) := by exact_mod_cast hd
  have := mul_le_mul_of_nonneg_right (sub_le_sub_right hcast ((sd : Int) : ℚ)) hscale
  linarith

/-! ### Level-assignment invariants -/

theorem mem_placeInLevels {acc : List EWX → Bool} {e m : EWX} :
    ∀ {levels : List (List EWX)} {lvl : List EWX},
      lvl ∈ placeInLevels acc e levels → m ∈ lvl →
      m = e ∨ ∃ l0 ∈ levels, m ∈ l0 := by
  intro levels
  induction levels with
  | nil =>
    intro lvl hl hm
    simp [placeInLevels] at hl
    subst hl
    simp at hm
    exact Or.inl hm
  | cons l ls ih =>
    intro lvl hl hm
    rw [placeInLevels] at hl
    split at hl
    · rcases List.mem_cons.mp hl with rfl | h2
      · rcases List.mem_append.mp hm with h3 | h3
        · exact Or.inr ⟨l, List.mem_cons_self _ _, h3⟩
        · simp at h3
          exact Or.inl h3
      · exact Or.inr ⟨lvl, List.mem_cons_of_mem _ h2, hm⟩
    · rcases List.mem_cons.mp hl with rfl | h2
      · exact Or.inr ⟨lvl, List.mem_cons_self _ _, hm⟩
      · rcases ih h2 hm with h3 | ⟨l0, hl0, hm0⟩
        · exact Or.inl h3
        · exact Or.inr ⟨l0, List.mem_cons_of_mem _ hl0, hm0⟩

theorem mem_runAssign {acc : List EWX → EWX → Bool} {m : EWX} :
    ∀ {es : List EWX} {levels : List (List EWX)} {lvl : List EWX},
      lvl ∈ runAssign acc es levels → m ∈ lvl →
      (∃ l0 ∈ levels, m ∈ l0) ∨ m ∈ es := by
  intro es
  induction es with
  | nil =>
    intro levels lvl hl hm
    exact Or.inl ⟨lvl, hl, hm⟩
  | cons e es ih =>
    intro levels lvl hl hm
    simp only [runAssign] at hl
    rcases ih hl hm with ⟨l0, hl0, hm0⟩ | h2
    · rcases mem_placeInLevels hl0 hm0 with rfl | ⟨l1, hl1, hm1⟩
      · exact Or.inr (List.mem_cons_self _ _)
      · exact Or.inl ⟨l1, hl1, hm1⟩
    · exact Or.inr (List.mem_cons_of_mem _ h2)

theorem placeInLevels_pairwise {R : EWX → EWX → Prop} {e : EWX} {acc : List EWX → Bool} :
    ∀ {levels : List (List EWX)},
      (∀ l ∈ levels, acc l = true → ∀ ex ∈ l, R ex e) →
      (∀ lvl ∈ levels, lvl.Pairwise R) →
      ∀ lvl ∈ placeInLevels acc e levels, lvl.Pairwise R := by
  intro levels
  induction levels with
  | nil =>
    intro _ _ lvl hl
    simp [placeInLevels] at hl
    subst hl
    simp
  | cons l ls ih =>
    intro hacc hp lvl hl
    rw [placeInLevels] at hl
    split at hl
    case isTrue hb =>
      rcases List.mem_cons.mp hl with rfl | h2
      · refine List.pairwise_append.mpr ⟨hp l (List.mem_cons_self _ _), by simp, ?_⟩
        intro a ha b hb2
        simp at hb2
        subst hb2
        exact hacc l (List.mem_cons_self _ _) hb a ha
      · exact hp lvl (List.mem_cons_of_mem _ h2)
    case isFalse hb =>
      rcases List.mem_cons.mp hl with rfl | h2
      · exact hp lvl (List.mem_cons_self _ _)
      · exact ih (fun l0 hl0 => hacc l0 (List.mem_cons_of_mem _ hl0))
          (fun l0 hl0 => hp l0 (List.mem_cons_of_mem _ hl0)) lvl h2

theorem runAssign_pairwise_all {s : ℚ} {acc : List EWX → EWX → Bool}
    (hacc : ∀ l e, acc l e = true → ∀ ex ∈ l, sepAt s ex e) :
    ∀ {es : List EWX} {levels : List (List EWX)},
      (∀ lvl ∈ levels, lvl.Pairwise (sepAt s)) →
      ∀ lvl ∈ runAssign acc es levels, lvl.Pairwise (sepAt s) := by
  intro es
  induction es with
  | nil => intro levels h lvl hl; exact h lvl hl
  | cons e es ih =>
    intro levels h lvl hl
    simp only [runAssign] at hl
    exact ih (placeInLevels_pairwise (fun l hl0 hb => hacc l e hb) h) lvl hl

theorem fitsSingle_sep {l : List EWX} {e : EWX}
    (h : fitsInLevelSingle l e.x e.x2 = true) : ∀ ex ∈ l, sepAt 200 ex e := by
  intro ex hex
  have h2 := (List.all_eq_true.mp h) ex hex
  simp only [Bool.or_eq_true, decide_eq_true_eq] at h2
  unfold sepAt
  rcases h2 with h3 | h3
  · right
    linarith
  · left
    linarith

theorem fitsSplit_sep {l : List EWX} {e : EWX}
    (h : fitsInLevel l e.x e.x2 = true) : ∀ ex ∈ l, sepAt 80 ex e := by
  intro ex hex
  have h2 := (List.all_eq_true.mp h) ex hex
  simp only [Bool.or_eq_true, decide_eq_true_eq] at h2
  unfold sepAt
  rcases h2 with h3 | h3
  · right
    linarith
  · left
    linarith

theorem getLast?_mem' {α : Type _} :
    ∀ {l : List α} {b : α}, l.getLast? = some b → b ∈ l := by
  intro l
  induction l with
  | nil => intro b h; cases h
  | cons x xs ih =>
    intro b h
    cases xs with
    | nil =>
      simp [List.getLast?] at h
      subst h
      exact List.mem_cons_self _ _
    | cons y ys =>
      rw [List.getLast?_cons_cons] at h
      exact List.mem_cons_of_mem _ (ih h)

theorem pairwise_getLast {α : Type _} {R : α → α → Prop} :
    ∀ {l : List α} {b : α}, l.Pairwise R → l.getLast? = some b →
      ∀ a ∈ l, a = b ∨ R a b := by
  intro l
  induction l with
  | nil => intro b _ h; cases h
  | cons x xs ih =>
    intro b hp hl a ha
    rcases List.pairwise_cons.mp hp with ⟨hx, hxs⟩
    cases xs with
    | nil =>
      simp [List.getLast?] at hl
      subst hl
      simp at ha
      exact Or.inl ha
    | cons y ys =>
      rw [List.getLast?_cons_cons] at hl
      rcases List.mem_cons.mp ha with rfl | ha2
      · exact Or.inr (hx b (getLast?_mem' hl))
      · exact ih hxs hl a ha2

theorem levelAccepts_sep {spacing : ℚ} {dls : List (ℚ × ℚ)} {lvl : List EWX} {e : EWX}
    (hb : levelAccepts spacing dls lvl e = true)
    (hp : lvl.Pairwise (stepSep spacing))
    (hle : ∀ m ∈ lvl, m.x ≤ e.x) :
    ∀ m ∈ lvl, stepSep spacing m e := by
  unfold levelAccepts at hb
  cases hl : lvl.getLast? with
  | none => rw [hl] at hb; cases hb
  | some last =>
    rw [hl] at hb
    simp only [Bool.and_eq_true, decide_eq_true_eq] at hb
    have hlast : last.x2 + spacing < e.x := hb.1
    intro m hm
    rcases pairwise_getLast hp hl m hm with rfl | hstep
    · exact hlast
    · have hlx : last.x ≤ e.x := hle last (getLast?_mem' hl)
      unfold stepSep at hstep ⊢
      linarith

theorem runAssign_pairwise_last {spacing : ℚ} {dls : List (ℚ × ℚ)} :
    ∀ {es : List EWX} {levels : List (List EWX)},
      es.Pairwise (fun a b => a.x ≤ b.x) →
      (∀ lvl ∈ levels, lvl.Pairwise (stepSep spacing)) →
      (∀ lvl ∈ levels, ∀ m ∈ lvl, ∀ r ∈ es, m.x ≤ r.x) →
      ∀ lvl ∈ runAssign (fun l e => levelAccepts spacing dls l e) es levels,
        lvl.Pairwise (stepSep spacing) := by
  intro es
  induction es with
  | nil => intro levels _ h _ lvl hl; exact h lvl hl
  | cons e es ih =>
    intro levels hes hI1 hI2 lvl hl
    simp only [runAssign] at hl
    rcases List.pairwise_cons.mp hes with ⟨hex, hes2⟩
    refine ih hes2 ?_ ?_ lvl hl
    · refine placeInLevels_pairwise ?_ hI1
      intro l hl0 hb
      exact levelAccepts_sep hb (hI1 l hl0)
        (fun m hm => hI2 l hl0 m hm e (List.mem_cons_self _ _))
    · intro lvl0 hl0 m hm r hr
      rcases mem_placeInLevels hl0 hm with rfl | ⟨l1, hl1, hm1⟩
      · exact hex r hr
      · exact hI2 l1 hl1 m hm1 r (List.mem_cons_of_mem _ hr)

/-! ### From levels to placements -/

theorem mem_levelsToPositions {mkY : ℕ → ℚ} :
    ∀ {levels : List (List EWX)} {i : ℕ} {p : Placement},
      p ∈ levelsToPositions mkY i levels →
      i ≤ p.level ∧ p.y = mkY p.level ∧
        ∃ lvl ∈ levels, ∃ m ∈ lvl, p.event = m.event ∧ p.x = m.x ∧ p.x2 = m.x2 := by
  intro levels
  induction levels with
  | nil =>
    intro i p hp
    simp [levelsToPositions] at hp
  | cons lvl ls ih =>
    intro i p hp
    simp only [levelsToPositions] at hp
    rcases List.mem_append.mp hp with h1 | h1
    · rcases List.mem_map.mp h1 with ⟨m, hm, rfl⟩
      exact ⟨le_refl _, rfl, lvl, List.mem_cons_self _ _, m, hm, rfl, rfl, rfl⟩
    · obtain ⟨hi, hy, l0, hl0, rest⟩ := ih h1
      exact ⟨le_trans (Nat.le_succ _) hi, hy, l0, List.mem_cons_of_mem _ hl0, rest⟩

theorem levelsToPositions_pairwise {s : ℚ} {mkY : ℕ → ℚ} :
    ∀ {levels : List (List EWX)} {i : ℕ},
      (∀ lvl ∈ levels, lvl.Pairwise (sepAt s)) →
      (levelsToPositions mkY i levels).Pairwise
        (fun p q => p.level = q.level → p.x2 + s < q.x ∨ q.x2 + s < p.x) := by
  intro levels
  induction levels with
  | nil =>
    intro i _
    simp [levelsToPositions]
  | cons lvl ls ih =>
    intro i h
    simp only [levelsToPositions]
    refine List.pairwise_append.mpr
      ⟨?_, ih (fun l0 hl0 => h l0 (List.mem_cons_of_mem _ hl0)), ?_⟩
    · refine List.pairwise_map.mpr ?_
      refine (h lvl (List.mem_cons_self _ _)).imp ?_
      intro a b hab
      intro _
      exact hab
    · intro a ha b hb
      rcases List.mem_map.mp ha with ⟨m, -, rfl⟩
      obtain ⟨hi, -, -⟩ := mem_levelsToPositions hb
      intro hlev
      exact absurd (show i = b.level from hlev) (by omega)

theorem twoSided_pairwise {s axisY : ℚ} {mkA mkB : ℕ → ℚ}
    {la lb : List (List EWX)}
    (hA : ∀ lvl ∈ la, lvl.Pairwise (sepAt s))
    (hB : ∀ lvl ∈ lb, lvl.Pairwise (sepAt s))
    (hyA : ∀ i : ℕ, mkA i < axisY)
    (hyB : ∀ i : ℕ, ¬mkB i < axisY) :
    (levelsToPositions mkA 0 la ++ levelsToPositions mkB 0 lb).Pairwise
      (sepCond s axisY) := by
  refine List.pairwise_append.mpr ⟨?_, ?_, ?_⟩
  · exact (levelsToPositions_pairwise hA).imp (fun h hl _ => h hl)
  · exact (levelsToPositions_pairwise hB).imp (fun h hl _ => h hl)
  · intro p hp q hq
    obtain ⟨-, hyp, -⟩ := mem_levelsToPositions hp
    obtain ⟨-, hyq, -⟩ := mem_levelsToPositions hq
    intro _ hiff
    have h1 : p.y < axisY := by rw [hyp]; exact hyA _
    have h2 : ¬q.y < axisY := by rw [hyq]; exact hyB _
    exact absurd (hiff.mp h1) h2

/-! ### Claim theorems about the collision layout -/

/-- C2 counterexample: two point events 201px apart are admitted to the same
level of the unified layout (same level 0, same side, identical `y`), since
the acceptance test only requires a gap larger than one spacing constant.
Their doubly-inflated intervals `[x - 200, x2 + 200]` are `[-200, 200]` and
`[1, 401]`, which intersect (`-200 ≤ 401` and `1 ≤ 200`), refuting the claim
that those intervals never intersect. -/
theorem layout_inflated_overlap_cex :
    calculateEventPositions [cexP1, cexP2] 0 10000 0 1 0 [] "" =
      [⟨cexP1, 0, 0, -60, 0⟩, ⟨cexP2, 201, 201, -60, 0⟩] ∧
    ((0 : ℚ) - 200 ≤ 201 + 200 ∧ (201 : ℚ) - 200 ≤ 0 + 200) := by
  refine ⟨?_, by norm_num, by norm_num⟩
  norm_num [calculateEventPositions, sortByDate, insertSorted, toEWX, dateToX,
    runAssign, placeInLevels, fitsInLevelSingle, levelsToPositions, cexP1, cexP2,
    List.filterMap, List.all]

/-- C2 (amended): in every view mode, any two placements in the same level
and on the same side of the baseline have raw intervals separated by more
than the view's spacing constant: the one-sidedly inflated intervals
`[x, x2]` and `[x' - spacing, x'2 + spacing]` never intersect (equivalently
`x2 + spacing < x'` for the pair in one order). The doubly-inflated
intervals of the original claim may intersect. For the entity-filtered
unified layout, which only checks a level's most recent member, the
separation relies on the nonnegative scale (`0 ≤ scale`); the split-view
rows check every member and need no hypothesis. -/
theorem layout_same_level_separation (events : List LEvent) (startDate endDate : Int)
    (axisStartX scale axisY : ℚ) (dls : List (ℚ × ℚ)) (filterEntity : String)
    (rowEvents : List LEvent) (key : String) (splitByEntity : Bool)
    (startDate2 : Int) (axisStartX2 scale2 : ℚ)
    (hscale : 0 ≤ scale) :
    (calculateEventPositions events startDate endDate axisStartX scale axisY dls
        filterEntity).Pairwise (sepCond 200 axisY) ∧
    (splitRowPositions rowEvents key splitByEntity startDate2 axisStartX2
        scale2).Pairwise (sepCond 80 0) := by
  constructor
  · by_cases hf : filterEntity = ""
    · simp only [calculateEventPositions, if_pos hf]
      exact (levelsToPositions_pairwise
        (runAssign_pairwise_all (fun l e hb => fitsSingle_sep hb) (by simp))).imp
        (fun h hl _ => h hl)
    · simp only [calculateEventPositions, if_neg hf, assignLevelsToEvents]
      refine twoSided_pairwise ?_ ?_ ?_ ?_
      · intro lvl hl
        refine (runAssign_pairwise_last
          ((sorted_x_mono hscale).filter _) (by simp) (by simp) lvl hl).imp ?_
        intro a b hab
        exact Or.inl hab
      · intro lvl hl
        refine (runAssign_pairwise_last
          ((sorted_x_mono hscale).filter _) (by simp) (by simp) lvl hl).imp ?_
        intro a b hab
        exact Or.inl hab
      · intro i
        have h30 : (0 : ℚ) < ((i : ℚ) + 1) * 30 := by positivity
        linarith
      · intro i
        have h30 : (0 : ℚ) ≤ ((i : ℚ) + 1) * 30 := by positivity
        linarith
  · simp only [splitRowPositions]
    refine twoSided_pairwise ?_ ?_ ?_ ?_
    · exact runAssign_pairwise_all (fun l e hb => fitsSplit_sep hb) (by simp)
    · exact runAssign_pairwise_all (fun l e hb => fitsSplit_sep hb) (by simp)
    · intro i
      have h30 : (0 : ℚ) ≤ (i : ℚ) * 30 := by positivity
      linarith
    · intro i
      have h30 : (0 : ℚ) ≤ (i : ℚ) * 30 := by positivity
      linarith

/-- C2 witness: the separation invariant at a concrete input (the events of
the counterexample, which are separated by more than one spacing, and a
concrete split row). -/
theorem layout_same_level_separation_wit :
    (calculateEventPositions [cexP1, cexP2] 0 10000 0 1 0 [] "").Pairwise
      (sepCond 200 0) ∧
    (splitRowPositions [cexP1, cexP2, cexEvent] "a" true 0 0 1).Pairwise
      (sepCond 80 0) :=
  layout_same_level_separation [cexP1, cexP2] 0 10000 0 1 0 [] ""
    [cexP1, cexP2, cexEvent] "a" true 0 0 1 (by norm_num)

/-- C6: the layout computation is deterministic: two runs of the embedded
layout on identical `(events, viewport-derived mapping, mode, filter)`
inputs return identical placement lists, for both the unified and the
split-row engines (the embedding is a pure function, mirroring the absence
of any non-input dependence in the source). -/
theorem layout_two_runs_equal (events : List LEvent) (startDate endDate : Int)
    (axisStartX scale axisY : ℚ) (dls : List (ℚ × ℚ)) (filterEntity : String)
    (rowEvents : List LEvent) (key : String) (splitByEntity : Bool)
    (startDate2 : Int) (axisStartX2 scale2 : ℚ) :
    calculateEventPositions events startDate endDate axisStartX scale axisY dls
        filterEntity =
      calculateEventPositions events startDate endDate axisStartX scale axisY dls
        filterEntity ∧
    splitRowPositions rowEvents key splitByEntity startDate2 axisStartX2 scale2 =
      splitRowPositions rowEvents key splitByEntity startDate2 axisStartX2 scale2 :=
  ⟨rfl, rfl⟩

/-- C7 counterexample: the parser does not reorder reversed ranges:
`parse("2027-2026")` returns a range whose end date `"2026-12-31"` precedes
its start date `"2027-01-01"` (ISO strings compare chronologically), and a
reversed-range event placed by the layout gets `x2 = 0 < 100 = x`, refuting
`endDate ≥ startDate` and `x2 ≥ x`. -/
theorem range_order_cex :
    parse gNone "2025-06-15" "2027-2026" =
      some ⟨"2027-01-01", some "2026-12-31", false⟩ ∧
    isoDateVal "2026-12-31" < isoDateVal "2027-01-01" ∧
    calculateEventPositions [cexRev] 0 10000 0 1 0 [] "" =
      [⟨cexRev, 100, 0, -60, 0⟩] ∧
    (0 : ℚ) < 100 := by
  refine ⟨rfl, by decide, ?_, by norm_num⟩
  norm_num [calculateEventPositions, sortByDate, insertSorted, toEWX, dateToX,
    runAssign, placeInLevels, fitsInLevelSingle, levelsToPositions, cexRev,
    List.filterMap, List.all]

/-- C7 (amended): every placement produced by the layout satisfies
`x2 ≥ x`, provided the time-to-pixel scale is nonnegative and every event's
resolved end date is at least its start date — which holds for all parses
except textually reversed ranges, which the parser propagates unchanged. -/
theorem placements_x_le_x2 (events : List LEvent) (startDate endDate : Int)
    (axisStartX scale axisY : ℚ) (dls : List (ℚ × ℚ)) (filterEntity : String)
    (hscale : 0 ≤ scale)
    (hranges : ∀ e ∈ events, ∀ s t : Int, e.start = some s → e.endDate = some t → s ≤ t) :
    ∀ p ∈ calculateEventPositions events startDate endDate axisStartX scale axisY dls
        filterEntity, p.x ≤ p.x2 := by
  have hEWX : ∀ m ∈ sortByDate (events.filterMap (toEWX axisStartX scale startDate)),
      m.x ≤ m.x2 := by
    intro m hm
    obtain ⟨e, hel, he⟩ := List.mem_filterMap.mp (mem_sortByDate hm)
    obtain ⟨hme, hstart, hx, hx2⟩ := toEWX_spec he
    rcases hx2 with h | ⟨ed, hed, hx2⟩
    · rw [h]
    · have hdt : m.date ≤ ed := hranges e hel m.date ed hstart hed
      rw [hx, hx2]
      unfold dateToX
      have hcast : (m.date : ℚ) ≤ (ed : ℚ) := by exact_mod_cast hdt
      have := mul_le_mul_of_nonneg_right
        (sub_le_sub_right hcast ((startDate : Int) : ℚ)) hscale
      linarith
  intro p hp
  by_cases hf : filterEntity = ""
  · simp only [calculateEventPositions, if_pos hf] at hp
    obtain ⟨-, -, lvl, hlvl, m, hm, -, hpx, hpx2⟩ := mem_levelsToPositions hp
    rcases mem_runAssign hlvl hm with ⟨l0, hl0, -⟩ | hmem
    · simp at hl0
    · rw [hpx, hpx2]
      exact hEWX m hmem
  · simp only [calculateEventPositions, if_neg hf, assignLevelsToEvents] at hp
    rcases List.mem_append.mp hp with hp1 | hp1 <;>
    · obtain ⟨-, -, lvl, hlvl, m, hm, -, hpx, hpx2⟩ := mem_levelsToPositions hp1
      rcases mem_runAssign hlvl hm with ⟨l0, hl0, -⟩ | hmem
      · simp at hl0
      · rw [hpx, hpx2]
        exact hEWX m (List.mem_of_mem_filter hmem)

/-- C7 witness: the placement of a well-ordered concrete range satisfies
`x ≤ x2`. -/
theorem placements_x_le_x2_wit :
    (⟨wEvent, 0, 5, -60, 0⟩ : Placement).x ≤ (⟨wEvent, 0, 5, -60, 0⟩ : Placement).x2 := by
  have hmem : (⟨wEvent, 0, 5, -60, 0⟩ : Placement) ∈
      calculateEventPositions [wEvent] 0 10000 0 1 0 [] "" := by
    have hcalc : calculateEventPositions [wEvent] 0 10000 0 1 0 [] "" =
        [⟨wEvent, 0, 5, -60, 0⟩] := by
      norm_num [calculateEventPositions, sortByDate, insertSorted, toEWX, dateToX,
        runAssign, placeInLevels, fitsInLevelSingle, levelsToPositions, wEvent,
        List.filterMap, List.all]
    rw [hcalc]
    exact List.mem_singleton.mpr rfl
  refine placements_x_le_x2 [wEvent] 0 10000 0 1 0 [] "" (by norm_num) ?_ _ hmem
  intro e he s t hs ht
  simp at he
  subst he
  simp [wEvent] at hs ht
  omega

/-! ### Claim theorems about the viewport transform -/

theorem clampQ_idem (lo hi v : ℚ) : clampQ lo hi (clampQ lo hi v) = clampQ lo hi v := by
  unfold clampQ
  rcases le_total lo (min hi v) with h | h
  · rw [max_eq_right h, min_eq_right (min_le_left hi v), max_eq_right h]
  · rw [max_eq_left h]
    exact max_eq_left (min_le_right hi lo)

theorem constrainedPanX_idem (w : ℚ) (vm : ViewMode) (zoom : ℚ) (events : List LEvent)
    (p : ℚ) :
    constrainedPanX w vm zoom events (constrainedPanX w vm zoom events p) =
      constrainedPanX w vm zoom events p := by
  simp only [constrainedPanX]
  exact clampQ_idem _ _ _

theorem constrainedPanY_idem (h : ℚ) (vm : ViewMode) (zoom : ℚ) (events : List LEvent)
    (p : ℚ) :
    constrainedPanY h vm zoom events (constrainedPanY h vm zoom events p) =
      constrainedPanY h vm zoom events p := by
  simp only [constrainedPanY]
  by_cases hvm : vm = ViewMode.entity ∨ vm = ViewMode.goal
  · rw [if_pos hvm, if_pos hvm]
    by_cases hrc : 0 < rowCountOf vm events
    · rw [if_pos hrc, if_pos hrc]
      exact clampQ_idem _ _ _
    · rw [if_neg hrc, if_neg hrc]
  · rw [if_neg hvm, if_neg hvm]

/-- C9: the pan clamp is a fixed point operator: applying `constrainPan`
twice with no intervening state change returns the same viewport as
applying it once, for every event list, zoom, view mode and pan offsets
(the clamp bounds depend only on fields the clamp never changes). -/
theorem constrainPan_fixed_point (w h : ℚ) (s : RState) :
    constrainPan w h (constrainPan w h s) = constrainPan w h s := by
  unfold constrainPan
  by_cases h1 : s.events.isEmpty
  · rw [if_pos h1, if_pos h1]
  · rw [if_neg h1]
    by_cases h2 : (datesOf s.events).isEmpty
    · rw [if_pos h2, if_neg h1, if_pos h2]
    · rw [if_neg h2]
      have he : ({ s with
          panX := constrainedPanX w s.viewMode s.zoom s.events s.panX,
          panY := constrainedPanY h s.viewMode s.zoom s.events s.panY} : RState).events
          = s.events := rfl
      rw [he, if_neg h1, if_neg h2]
      simp only [constrainedPanX_idem, constrainedPanY_idem]

/-- C3 counterexample: two ways `setZoom` breaks the ±1px anchoring.
First, in the split (entity) view it anchors against `MARGIN.left = 100`
although the split axis starts at the 180px label column: with a 1000×600
viewport, one event spanning 0..6000 and today = 0, the calendar instant
2600 sits exactly at the 500px viewport center at zoom 1, but after
`setZoom 2` (the re-solved pan −400 is within the clamp bounds, so the
clamp plays no part) it maps to 420px, an 80px shift. Second, even in the
unified view the final pan clamp can move the anchor: from zoom 1/10 with
the content at the right screen edge (panX = 900, itself clamp-stable),
`setZoom 10` re-solves panX to 50400 and `constrainPan` clamps it back to
900, so the instant −45600 that sat at the 500px center (the padded content
bounds being −600..6600) maps to −49000 afterwards: 49500px off. -/
theorem setZoom_split_anchor_cex :
    dateToX (splitAxisStartX cexState.panX)
      (viewScale (1000 - 180 - 100) cexState.zoom
        ((contentBounds cexState.events 0).2 - (contentBounds cexState.events 0).1))
      (contentBounds cexState.events 0).1 2600 = 500 ∧
    setZoom 1000 600 cexState 2 = ⟨ViewMode.entity, 2, -400, 380, [cexEvent]⟩ ∧
    dateToX (splitAxisStartX (setZoom 1000 600 cexState 2).panX)
      (viewScale (1000 - 180 - 100) (setZoom 1000 600 cexState 2).zoom
        ((contentBounds cexState.events 0).2 - (contentBounds cexState.events 0).1))
      (contentBounds cexState.events 0).1 2600 = 420 ∧
    ((500 : ℚ) - 420 = 80 ∧ (1 : ℚ) < 80) ∧
    dateToX (singleAxisStartX cexSingleState.panX)
      (viewScale (1000 - 200) cexSingleState.zoom 7200) (-600) (-45600) = 500 ∧
    setZoom 1000 600 cexSingleState 10 = ⟨ViewMode.single, 10, 900, 0, [cexEvent]⟩ ∧
    dateToX (singleAxisStartX (setZoom 1000 600 cexSingleState 10).panX)
      (viewScale (1000 - 200) (setZoom 1000 600 cexSingleState 10).zoom 7200)
      (-600) (-45600) = -49000 ∧
    ((500 : ℚ) - (-49000) = 49500 ∧ (1 : ℚ) < 49500) := by
  have hsz : setZoom 1000 600 cexState 2 = ⟨ViewMode.entity, 2, -400, 380, [cexEvent]⟩ := by
    norm_num [setZoom, constrainPan, constrainedPanX, constrainedPanY, getRowHeight,
      rowCountOf, datesOf, listMin, listMax, contentPadding, clampQ, cexState, cexEvent,
      List.dedup, List.flatMap]
  have hb : contentBounds cexState.events 0 = (-600, 6600) := by
    norm_num [contentBounds, datesOf, listMin, listMax, contentPadding, cexState,
      cexEvent, List.flatMap]
  have hm : ¬(ViewMode.single = ViewMode.entity ∨ ViewMode.single = ViewMode.goal) := by
    simp
  have hszs : setZoom 1000 600 cexSingleState 10 =
      ⟨ViewMode.single, 10, 900, 0, [cexEvent]⟩ := by
    norm_num [setZoom, constrainPan, constrainedPanX, constrainedPanY, getRowHeight,
      rowCountOf, datesOf, listMin, listMax, contentPadding, clampQ, cexSingleState,
      cexEvent, List.flatMap, hm]
  refine ⟨?_, hsz, ?_, by norm_num, ?_, hszs, ?_, by norm_num⟩
  · rw [hb]
    norm_num [dateToX, viewScale, splitAxisStartX, cexState]
  · rw [hb, hsz]
    norm_num [dateToX, viewScale, splitAxisStartX]
  · norm_num [dateToX, viewScale, singleAxisStartX, cexSingleState]
  · rw [hszs]
    norm_num [dateToX, viewScale, singleAxisStartX]

/-- C3 (amended): in the unified (`single`) view, whenever the pan clamp
leaves the re-solved pan unchanged — hypothesis `hpan`: the resulting
`panX` equals the anchor formula `w/2 − ((w/2 − panX − 100)/Z)·Z′ − 100`,
which holds with no events (the clamp is a no-op) and whenever the
re-solved pan lies inside the clamp bounds — `setZoom` maps the calendar
instant previously at the horizontal viewport center exactly to that
center pixel again under the new (clamped) zoom, in particular within
±1px. Beyond that the claim fails, in both ways the counterexample
exhibits: the split views miss the center by `80·(1 − Z′/Z)` pixels
(the anchor uses `MARGIN.left` while the split axis starts at the
label-column width), and a binding pan clamp moves the anchored instant
even in the unified view. -/
theorem setZoom_anchors_center_single (w h : ℚ) (s : RState) (newZoom sd span dd : ℚ)
    (hmode : s.viewMode = ViewMode.single) (hz : 0 < s.zoom)
    (hpan : (setZoom w h s newZoom).panX =
      w / 2 - ((w / 2 - s.panX - 100) / s.zoom) * (setZoom w h s newZoom).zoom - 100)
    (hcenter : dateToX (singleAxisStartX s.panX) (viewScale (w - 200) s.zoom span) sd dd
      = w / 2) :
    dateToX (singleAxisStartX (setZoom w h s newZoom).panX)
      (viewScale (w - 200) (setZoom w h s newZoom).zoom span) sd dd = w / 2 := by
  have hzne : s.zoom ≠ 0 := ne_of_gt hz
  have _ := hmode
  unfold dateToX viewScale singleAxisStartX at hcenter ⊢
  have hfold : ∀ z : ℚ, (dd - sd) * ((w - 200) * z / span) =
      ((dd - sd) * ((w - 200) / span)) * z := by
    intro z
    ring
  rw [hfold] at hcenter ⊢
  set A := (dd - sd) * ((w - 200) / span) with hA
  have hrel : (w / 2 - s.panX - 100) / s.zoom = A := by
    rw [show w / 2 - s.panX - 100 = A * s.zoom by linarith]
    exact mul_div_cancel_right₀ A hzne
  rw [hpan, hrel]
  ring

/-- C3 witness: concrete anchoring in the unified view with events present
and the clamp inactive: one event spanning 0..6000, a 1000-wide viewport
(800px content width over the 7200 span −600..6600); the instant 3600 sits
at the 500px center at zoom 1, `setZoom 2` re-solves the pan to −400
(inside the clamp bounds −1500..900), and 3600 still maps to 500. -/
theorem setZoom_anchors_center_single_wit :
    dateToX (singleAxisStartX (setZoom 1000 600 wSingleState 2).panX)
      (viewScale (1000 - 200) (setZoom 1000 600 wSingleState 2).zoom 7200)
      (-600) 3000 = 1000 / 2 := by
  have hm : ¬(ViewMode.single = ViewMode.entity ∨ ViewMode.single = ViewMode.goal) := by
    simp
  have hsz : setZoom 1000 600 wSingleState 2 =
      ⟨ViewMode.single, 2, -400, 0, [cexEvent]⟩ := by
    norm_num [setZoom, constrainPan, constrainedPanX, constrainedPanY, getRowHeight,
      rowCountOf, datesOf, listMin, listMax, contentPadding, clampQ, wSingleState,
      cexEvent, List.flatMap, hm]
  refine setZoom_anchors_center_single 1000 600 wSingleState 2 (-600) 7200 3000 rfl
    (by norm_num [wSingleState]) ?_
    (by norm_num [dateToX, viewScale, singleAxisStartX, wSingleState])
  rw [hsz]
  norm_num [wSingleState]
